import Mathlib

set_option maxHeartbeats 1000000

/-!
Shallow embedding of the quiz-solver program (src/app.py).

The program's pure string-processing logic is translated directly into Lean
functions.  External collaborators (the `urllib` URL parser/joiner, the HTTP
client `requests.get`, and the Selenium renderer) are modelled as explicit
oracle parameters gathered in the `Collab` structure, and the regex link
harvest of `sniff_related_urls` is modelled as an `extract` parameter, since
every claim quantifies over all possible candidate lists.  Python `str` is
modelled as Lean `String` (a list of characters), Python numbers as `ℚ`
(exact arithmetic in place of IEEE floats), and fallible calls as `Option`.
-/

/-! ## Python string primitives -/

/-- Boolean sublist (contiguous substring) test: some suffix of the haystack
has the needle as a prefix.  Models the Python `in` operator on `str`. -/
def isSubList : List Char → List Char → Bool
  | needle, [] => needle.isEmpty
  | needle, c :: rest => needle.isPrefixOf (c :: rest) || isSubList needle rest

/-- Models Python `needle in hay` for strings. -/
def pyContains (needle hay : String) : Bool := isSubList needle.data hay.data

/-- Models Python `s.startswith(p)`. -/
def pyStartsWith (p s : String) : Bool := List.isPrefixOf p.data s.data

/-- Models Python `s.lower()` (ASCII letters). -/
def pyLower (s : String) : String := ⟨s.data.map Char.toLower⟩

/-- Models Python slicing `s[:n]`. -/
def pyTake (n : Nat) (s : String) : String := ⟨s.data.take n⟩

/-- ASCII whitespace stripped by Python `str.strip()` (exotic Unicode
whitespace is not modelled). -/
def pyIsWS (c : Char) : Bool :=
  c == ' ' || c == '\t' || c == '\n' || c == '\r' || c == '\x0b' || c == '\x0c'

def stripLeft (cs : List Char) : List Char := cs.dropWhile pyIsWS

def stripRight (cs : List Char) : List Char := (cs.reverse.dropWhile pyIsWS).reverse

/-- Models Python `s.strip()` on character lists. -/
def pyStripL (cs : List Char) : List Char := stripRight (stripLeft cs)

/-- Models Python `s.split(sep)` for a one-character separator: separators
delimit fields, the empty string yields one empty field, and empty fields are
kept. -/
def splitOnChar (sep : Char) : List Char → List (List Char)
  | [] => [[]]
  | c :: cs =>
    if c = sep then [] :: splitOnChar sep cs
    else
      match splitOnChar sep cs with
      | [] => [[c]]
      | r :: rs => (c :: r) :: rs

/-! ## A model of Python `float()` on finite decimal literals

`float(s)` accepts an optional sign, a decimal mantissa (digits with an
optional point, at least one digit overall) and an optional exponent part.
The model returns the exact rational value; the non-finite literals
(`inf`, `nan`) and digit underscores are not modelled. -/

def digitsToNat (ds : List Char) : Nat :=
  ds.foldl (fun a c => 10 * a + (c.toNat - 48)) 0

/-- Reads an optional leading sign; `true` means negative. -/
def readSign : List Char → Bool × List Char
  | '+' :: cs => (false, cs)
  | '-' :: cs => (true, cs)
  | cs => (false, cs)

def applySign (neg : Bool) (q : ℚ) : ℚ := if neg then -q else q

/-- Parses the exponent digits after the letter `e`/`E`. -/
def readExpAfterE (q : ℚ) (cs : List Char) : Option ℚ :=
  if (readSign cs).2.takeWhile Char.isDigit = [] then none
  else if (readSign cs).2.dropWhile Char.isDigit ≠ [] then none
  else if (readSign cs).1 then
    some (q / 10 ^ digitsToNat ((readSign cs).2.takeWhile Char.isDigit))
  else
    some (q * 10 ^ digitsToNat ((readSign cs).2.takeWhile Char.isDigit))

/-- Parses an optional exponent suffix applied to mantissa value `q`. -/
def readExp (q : ℚ) : List Char → Option ℚ
  | [] => some q
  | 'e' :: cs => readExpAfterE q cs
  | 'E' :: cs => readExpAfterE q cs
  | _ => none

/-- Exact value of a decimal mantissa with integer part `ip` and fractional
part `fp`. -/
def mantissa (ip fp : List Char) : ℚ :=
  (digitsToNat ip : ℚ) + (digitsToNat fp : ℚ) / (10 : ℚ) ^ fp.length

/-- Models `float(s)` on a character list (finite literals). -/
def pyFloatL (cs : List Char) : Option ℚ :=
  match (readSign cs).2.dropWhile Char.isDigit with
  | '.' :: cs3 =>
    if (readSign cs).2.takeWhile Char.isDigit = [] ∧ cs3.takeWhile Char.isDigit = [] then none
    else
      (readExp (mantissa ((readSign cs).2.takeWhile Char.isDigit) (cs3.takeWhile Char.isDigit))
        (cs3.dropWhile Char.isDigit)).map (applySign (readSign cs).1)
  | rest =>
    if (readSign cs).2.takeWhile Char.isDigit = [] then none
    else
      (readExp (digitsToNat ((readSign cs).2.takeWhile Char.isDigit) : ℚ) rest).map
        (applySign (readSign cs).1)

/-! ## NumericAggregator: `csv_sum` (src/app.py lines 124-142) -/

/-- One cell of the grid: `float(cell.strip())`, `none` on parse failure
(the per-cell `try`/`except: pass`). -/
def parseCell (cell : List Char) : Option ℚ := pyFloatL (pyStripL cell)

/-- Numbers successfully parsed from one row (`row.split(",")`). -/
def rowNums (row : List Char) : List ℚ := (splitOnChar ',' row).filterMap parseCell

/-- All numbers parsed from the grid (`data.split("\n")`, then per-row). -/
def numsOf (cs : List Char) : List ℚ := ((splitOnChar '\n' cs).map rowNums).flatten

/-- The threshold filter: keep values strictly greater than the threshold
when one is given (`[n for n in nums if n > threshold]`). -/
def applyThreshold : Option ℚ → List ℚ → List ℚ
  | none, ns => ns
  | some t, ns => ns.filter (fun n => decide (t < n))

/-- `csv_sum(data, threshold)`: strip the data, split into rows on newline
and cells on comma, parse each cell discarding failures, filter by the
threshold, and sum.  The result is wrapped in `some` by the successful exit
of the outer `try`; the `except` branch returning `None` has no reachable
counterpart in this pure model, since every operation in the body is total
on `String` inputs. -/
def csv_sum (data : String) (threshold : Option ℚ) : Option ℚ :=
  some (applyThreshold threshold (numsOf (pyStripL data.data))).sum

/-- Modelled from the spec's words (§4.3), for comparison with `csv_sum`:
split `data` into rows on newline, each row into cells on comma, parse each
cell as a real number silently discarding non-numeric cells, keep only
values strictly greater than the threshold when one is given, and return
the sum.  Unlike `csv_sum` it does not strip the data first. -/
def csv_sum_ref (data : String) (threshold : Option ℚ) : ℚ :=
  (applyThreshold threshold (numsOf data.data)).sum

/-! ## PageRenderer: `render_dynamic_page` (src/app.py lines 43-60)

The Selenium session is modelled by an oracle record stating, for each
fallible call the function makes, whether the call succeeds (`some`) or
raises (`none`): first `build_driver()` (line 46, before the `try`), then
the three calls on the success path inside the `try` — `driver.get`, the
body-text extraction, and the first `driver.quit()`. -/

structure BrowserRun where
  acquire : Option Unit
  nav : Option Unit
  bodyText : Option String
  quitOk : Option Unit

/-- `render_dynamic_page`: acquire the driver, then navigate, read the
body text and quit inside a `try`.  `build_driver()` is called before the
`try`, so when acquisition raises the exception propagates to the caller
(`Except.error`); once the driver is acquired, a failure of any of the
three in-`try` calls makes the `except` branch return the empty string
(the nested `try: driver.quit()` there cannot change the result), and the
success path returns the extracted text. -/
def render_dynamic_page (r : BrowserRun) : Except String String :=
  match r.acquire with
  | none => Except.error "webdriver acquisition raised"
  | some _ =>
    match r.nav with
    | none => Except.ok ""
    | some _ =>
      match r.bodyText with
      | none => Except.ok ""
      | some t =>
        match r.quitOk with
        | none => Except.ok ""
        | some _ => Except.ok t

/-! ## ResourceDiscoverer: `sniff_related_urls` (src/app.py lines 67-117) -/

/-- External collaborators of the discovery loop: the `urllib` parser
(scheme and netloc of the base URL), `urljoin`, the HTTP client
(`none` models `requests.get` raising), and the renderer used for the
JS-stub fallback, modelled as a total collaborator per the spec's
rendering contract `render(url) -> text` (section 6). -/
structure Collab where
  urlScheme : String → String
  urlNetloc : String → String
  urljoin : String → String → String
  fetch : String → Option String
  render : String → String

/-- URL resolution of one raw candidate (src/app.py lines 91-97): a link
starting with `/` gets the base URL's scheme and host prefixed; a link
starting with `http` is used as-is; anything else is resolved relative to
the base via `urljoin`. -/
def resolve_link (C : Collab) (base link : String) : String :=
  if pyStartsWith "/" link then C.urlScheme base ++ "://" ++ C.urlNetloc base ++ link
  else if pyStartsWith "http" link then link
  else C.urljoin base link

/-- The fragment / `javascript:` skip test (src/app.py line 85). -/
def skipLink (link : String) : Bool :=
  pyStartsWith "#" link || pyStartsWith "javascript" link

/-- The JS-stub test (src/app.py line 107): the body contains `<script`
and is under 600 characters. -/
def isStubBody (body : String) : Bool :=
  pyContains "<script" body && decide (body.length < 600)

/-- State of the discovery loop: the raw-string dedup set `unique`, the
insertion-ordered result dict `discovered`, and two instrumentation logs
recording each `requests.get` attempt and each fallback render call. -/
structure SniffState where
  unique : List String
  discovered : List (String × String)
  fetched : List String
  rendered : List String

/-- Python dict assignment `d[k] = v` on an insertion-ordered association
list: an existing key keeps its position and gets the new value, a new key
is appended. -/
def dictInsert (k v : String) : List (String × String) → List (String × String)
  | [] => [(k, v)]
  | p :: rest => if p.1 = k then (k, v) :: rest else p :: dictInsert k v rest

/-- One iteration of the discovery loop (src/app.py lines 84-115) for raw
candidate `link`: skip fragments/`javascript:` links and raw duplicates,
record the raw string as seen, resolve, drop resolved URLs containing
`submit`, attempt the fetch (logging the attempt), fall back to the
renderer on a JS stub, and store the body truncated to 12000 characters. -/
def sniff_step (C : Collab) (base : String) (st : SniffState) (link : String) : SniffState :=
  if skipLink link then st
  else if link ∈ st.unique then st
  else if pyContains "submit" (pyLower (resolve_link C base link)) then
    { st with unique := link :: st.unique }
  else
    match C.fetch (resolve_link C base link) with
    | none =>
      { st with unique := link :: st.unique,
                fetched := st.fetched ++ [resolve_link C base link] }
    | some body =>
      if isStubBody body then
        { st with unique := link :: st.unique,
                  fetched := st.fetched ++ [resolve_link C base link],
                  rendered := st.rendered ++ [resolve_link C base link],
                  discovered := dictInsert (resolve_link C base link)
                    (pyTake 12000 (C.render (resolve_link C base link))) st.discovered }
      else
        { st with unique := link :: st.unique,
                  fetched := st.fetched ++ [resolve_link C base link],
                  discovered := dictInsert (resolve_link C base link)
                    (pyTake 12000 body) st.discovered }

def initSniffState : SniffState := ⟨[], [], [], []⟩

/-- The whole discovery pass: the regex harvest over the concatenated
buffer `html_text + visible_text` is modelled by the `extract` parameter,
and the per-candidate loop folds `sniff_step` over its output. -/
def sniff_run (C : Collab) (extract : String → List String)
    (base htmlText visibleText : String) : SniffState :=
  (extract (htmlText ++ visibleText)).foldl (sniff_step C base) initSniffState

/-- `sniff_related_urls` returns the discovered mapping. -/
def sniff_related_urls (C : Collab) (extract : String → List String)
    (base htmlText visibleText : String) : List (String × String) :=
  (sniff_run C extract base htmlText visibleText).discovered

/-- Whether a fetch of `u` under collaborators `C` yields a JS stub. -/
def isStubFetch (C : Collab) (u : String) : Bool :=
  match C.fetch u with
  | some body => isStubBody body
  | none => false

/-! ## Orchestrator pieces: `handle_quiz` (src/app.py lines 149-181) -/

/-- The qualification test of the numeric walk (src/app.py line 171):
the resolved URL contains `.csv`, or the body's first 80 characters
contain a digit. -/
def qualifiesAsset (link body : String) : Bool :=
  pyContains ".csv" link || (body.data.take 80).any Char.isDigit

/-- The numeric walk (src/app.py lines 169-172): starting from `None`,
every qualifying resource overwrites the result with `csv_sum` of its body
at the cutoff; the loop never breaks early. -/
def precomputed_result (cutoff : Option ℚ) (assets : List (String × String)) : Option ℚ :=
  assets.foldl
    (fun acc kv => if qualifiesAsset kv.1 kv.2 then csv_sum kv.2 cutoff else acc) none

/-- The separator class of the cutoff regex `[Cc]utoff[: ]+(\d+)`. -/
def isCutoffSep (c : Char) : Bool := c == ':' || c == ' '

/-- Literal matcher: consumes `pat` from the front of the input. -/
def matchLiteral : List Char → List Char → Option (List Char)
  | [], rest => some rest
  | _, [] => none
  | p :: ps, c :: cs => if c = p then matchLiteral ps cs else none

/-- Attempts the regex `[Cc]utoff[: ]+(\d+)` anchored at the head of the
input, returning the captured integer.  The character classes are greedy;
no backtracking can help since the classes are disjoint. -/
def cutoffMatchAt : List Char → Option Nat
  | [] => none
  | c :: cs =>
    if c = 'C' ∨ c = 'c' then
      match matchLiteral ['u', 't', 'o', 'f', 'f'] cs with
      | none => none
      | some r1 =>
        if r1.takeWhile isCutoffSep = [] then none
        else if (r1.dropWhile isCutoffSep).takeWhile Char.isDigit = [] then none
        else some (digitsToNat ((r1.dropWhile isCutoffSep).takeWhile Char.isDigit))
    else none

/-- `re.search`: the leftmost position where the pattern matches wins. -/
def searchCutoff : List Char → Option Nat
  | [] => none
  | c :: cs =>
    match cutoffMatchAt (c :: cs) with
    | some n => some n
    | none => searchCutoff cs

/-- The orchestrator's cutoff extraction (src/app.py lines 164-167):
`re.search(r'[Cc]utoff[: ]+(\d+)', page_text)`, `int` of the first capture,
`None` when there is no match. -/
def extract_cutoff (s : String) : Option Nat := searchCutoff s.data

/-! ## Raw-candidate deduplication, stated as a list transformation -/

def dedupAux (seen : List String) : List String → List String
  | [] => []
  | x :: xs => if x ∈ seen then dedupAux seen xs else x :: dedupAux (x :: seen) xs

/-- Keeps the first occurrence of every string and drops later repeats. -/
def dedupKeepFirst (l : List String) : List String := dedupAux [] l

/-! ## Concrete demonstration collaborators used by witnesses -/

/-- Demonstration collaborators: base URLs parse to scheme `http` and host
`h`, `urljoin` returns the link unchanged, every fetch succeeds (the URL
`http://h/js` returns a short `<script` stub, everything else returns
`data`), and the renderer returns `rendered`. -/
def demoCollab : Collab :=
  { urlScheme := fun _ => "http"
    urlNetloc := fun _ => "h"
    urljoin := fun _ l => l
    fetch := fun u => if u = "http://h/js" then some "<script src=x>" else some "data"
    render := fun _ => "rendered" }

/-- Demonstration candidate harvest: two distinct raw links resolving to
the same URL, plus a JS-stub resource. -/
def demoExtract : String → List String := fun _ => ["/a", "http://h/a", "/js"]

/-! ## General helper lemmas -/

theorem foldlInv {σ α : Type} (P : σ → Prop) (f : σ → α → σ)
    (hstep : ∀ s a, P s → P (f s a)) :
    ∀ (l : List α) (s : σ), P s → P (l.foldl f s) := by
  intro l
  induction l with
  | nil => intro s hs; exact hs
  | cons x xs ih => intro s hs; exact ih (f s x) (hstep s x hs)

theorem splitOnChar_ne_nil (sep : Char) (cs : List Char) : splitOnChar sep cs ≠ [] := by
  induction cs with
  | nil => simp [splitOnChar]
  | cons c cs ih =>
    by_cases h : c = sep
    · simp [splitOnChar, h]
    · simp only [splitOnChar, if_neg h]
      cases hs : splitOnChar sep cs with
      | nil => simp
      | cons r rs => simp

theorem splitOnChar_cons_sep (sep : Char) (cs : List Char) :
    splitOnChar sep (sep :: cs) = [] :: splitOnChar sep cs := by
  simp [splitOnChar]

theorem splitOnChar_cons_ne {c sep : Char} {cs r : List Char} {rs : List (List Char)}
    (h : c ≠ sep) (hs : splitOnChar sep cs = r :: rs) :
    splitOnChar sep (c :: cs) = (c :: r) :: rs := by
  simp only [splitOnChar, if_neg h, hs]

theorem splitOnChar_snoc_sep (sep : Char) (xs : List Char) :
    splitOnChar sep (xs ++ [sep]) = splitOnChar sep xs ++ [[]] := by
  induction xs with
  | nil => simp [splitOnChar]
  | cons x xs ih =>
    by_cases hx : x = sep
    · subst hx
      simp only [List.cons_append, splitOnChar_cons_sep, ih, List.cons_append]
    · obtain ⟨r, rs, hrs⟩ : ∃ r rs, splitOnChar sep xs = r :: rs := by
        cases h : splitOnChar sep xs with
        | nil => exact absurd h (splitOnChar_ne_nil sep xs)
        | cons a b => exact ⟨a, b, rfl⟩
      have h2 : splitOnChar sep (xs ++ [sep]) = r :: (rs ++ [[]]) := by
        rw [ih, hrs]; simp
      rw [List.cons_append, splitOnChar_cons_ne hx h2, splitOnChar_cons_ne hx hrs]
      simp

theorem splitOnChar_snoc_ne {c sep : Char} (h : c ≠ sep) (xs : List Char) :
    ∃ a b, splitOnChar sep xs = a ++ [b] ∧ splitOnChar sep (xs ++ [c]) = a ++ [b ++ [c]] := by
  induction xs with
  | nil =>
    refine ⟨[], [], by simp [splitOnChar], ?_⟩
    simp [splitOnChar, h]
  | cons x xs ih =>
    obtain ⟨a, b, h1, h2⟩ := ih
    by_cases hx : x = sep
    · subst hx
      refine ⟨[] :: a, b, ?_, ?_⟩
      · rw [splitOnChar_cons_sep, h1]; simp
      · rw [List.cons_append, splitOnChar_cons_sep, h2]; simp
    · cases a with
      | nil =>
        refine ⟨[], x :: b, ?_, ?_⟩
        · rw [splitOnChar_cons_ne hx (by simpa using h1)]; simp
        · rw [List.cons_append, splitOnChar_cons_ne hx (by simpa using h2)]; simp
      | cons a0 a1 =>
        have h1a : splitOnChar sep xs = a0 :: (a1 ++ [b]) := by simpa using h1
        have h2a : splitOnChar sep (xs ++ [c]) = a0 :: (a1 ++ [b ++ [c]]) := by simpa using h2
        refine ⟨(x :: a0) :: a1, b, ?_, ?_⟩
        · rw [splitOnChar_cons_ne hx h1a]; simp
        · rw [List.cons_append, splitOnChar_cons_ne hx h2a]; simp

/-! ## Whitespace and strip lemmas -/

theorem pyIsWS_ne_comma {c : Char} (h : pyIsWS c = true) : c ≠ ',' := by
  intro hc
  subst hc
  exact absurd h (by decide)

theorem stripLeft_cons_ws {c : Char} {u : List Char} (h : pyIsWS c = true) :
    stripLeft (c :: u) = stripLeft u := by
  simp [stripLeft, List.dropWhile_cons, h]

theorem pyStripL_cons_ws {c : Char} {u : List Char} (h : pyIsWS c = true) :
    pyStripL (c :: u) = pyStripL u := by
  simp [pyStripL, stripLeft_cons_ws h]

theorem stripRight_snoc_ws {c : Char} {u : List Char} (h : pyIsWS c = true) :
    stripRight (u ++ [c]) = stripRight u := by
  simp [stripRight, List.reverse_append, List.dropWhile_cons, h]

theorem pyStripL_snoc_ws {c : Char} {u : List Char} (h : pyIsWS c = true) :
    pyStripL (u ++ [c]) = pyStripL u := by
  by_cases he : (List.dropWhile pyIsWS u).isEmpty
  · have h1 : stripLeft (u ++ [c]) = [] := by
      simp [stripLeft, List.dropWhile_append, he, List.dropWhile_cons, h]
    have h2 : stripLeft u = [] := by
      simp [stripLeft]; simpa [List.isEmpty_iff] using he
    simp [pyStripL, h1, h2]
  · have h1 : stripLeft (u ++ [c]) = stripLeft u ++ [c] := by
      simp [stripLeft, List.dropWhile_append, he]
    rw [pyStripL, h1, stripRight_snoc_ws h, pyStripL]

/-! ## Row and grid parse lemmas -/

theorem rowNums_nil : rowNums [] = [] := by
  simp [rowNums, splitOnChar, parseCell, pyStripL, stripLeft, stripRight, pyFloatL, readSign]

theorem rowNums_cons_ws {c : Char} {r : List Char} (h : pyIsWS c = true) :
    rowNums (c :: r) = rowNums r := by
  obtain ⟨cell, cells, hs⟩ : ∃ cell cells, splitOnChar ',' r = cell :: cells := by
    cases hc : splitOnChar ',' r with
    | nil => exact absurd hc (splitOnChar_ne_nil ',' r)
    | cons a b => exact ⟨a, b, rfl⟩
  rw [rowNums, splitOnChar_cons_ne (pyIsWS_ne_comma h) hs, rowNums, hs]
  simp only [List.filterMap_cons, parseCell, pyStripL_cons_ws h]

theorem rowNums_snoc_ws {c : Char} {r : List Char} (h : pyIsWS c = true) :
    rowNums (r ++ [c]) = rowNums r := by
  obtain ⟨a, b, h1, h2⟩ := splitOnChar_snoc_ne (pyIsWS_ne_comma h) r
  rw [rowNums, h2, rowNums, h1]
  simp only [List.filterMap_append, List.filterMap_cons, List.filterMap_nil,
    parseCell, pyStripL_snoc_ws h]

theorem numsOf_cons_nl (t : List Char) : numsOf ('\n' :: t) = numsOf t := by
  rw [numsOf, splitOnChar_cons_sep, numsOf]
  simp [rowNums_nil]

theorem numsOf_cons_ws {c : Char} {t : List Char} (hws : pyIsWS c = true) (hnl : c ≠ '\n') :
    numsOf (c :: t) = numsOf t := by
  obtain ⟨r, rs, hs⟩ : ∃ r rs, splitOnChar '\n' t = r :: rs := by
    cases hc : splitOnChar '\n' t with
    | nil => exact absurd hc (splitOnChar_ne_nil '\n' t)
    | cons a b => exact ⟨a, b, rfl⟩
  rw [numsOf, splitOnChar_cons_ne hnl hs, numsOf, hs]
  simp [rowNums_cons_ws hws]

theorem numsOf_snoc_nl (t : List Char) : numsOf (t ++ ['\n']) = numsOf t := by
  rw [numsOf, splitOnChar_snoc_sep, numsOf]
  simp [rowNums_nil]

theorem numsOf_snoc_ws {c : Char} {t : List Char} (hws : pyIsWS c = true) (hnl : c ≠ '\n') :
    numsOf (t ++ [c]) = numsOf t := by
  obtain ⟨a, b, h1, h2⟩ := splitOnChar_snoc_ne hnl t
  rw [numsOf, h2, numsOf, h1]
  simp [rowNums_snoc_ws hws]

theorem numsOf_append_ws (w : List Char) (hall : ∀ c ∈ w, pyIsWS c = true) (u : List Char) :
    numsOf (u ++ w) = numsOf u := by
  induction w using List.reverseRecOn generalizing u with
  | nil => simp
  | append_singleton w c ih =>
    have hc : pyIsWS c = true := hall c (by simp)
    rw [← List.append_assoc]
    have hrest : numsOf (u ++ w ++ [c]) = numsOf (u ++ w) := by
      by_cases hnl : c = '\n'
      · subst hnl; exact numsOf_snoc_nl (u ++ w)
      · exact numsOf_snoc_ws hc hnl
    rw [hrest]
    exact ih (fun d hd => hall d (by simp [hd])) u

theorem numsOf_stripLeft (t : List Char) : numsOf (stripLeft t) = numsOf t := by
  induction t with
  | nil => rfl
  | cons c t ih =>
    by_cases h : pyIsWS c
    · rw [stripLeft_cons_ws h, ih]
      by_cases hnl : c = '\n'
      · subst hnl; rw [numsOf_cons_nl]
      · rw [numsOf_cons_ws h hnl]
    · simp [stripLeft, List.dropWhile_cons, h]

theorem numsOf_stripRight (t : List Char) : numsOf (stripRight t) = numsOf t := by
  have hdecomp : t = stripRight t ++ (t.reverse.takeWhile pyIsWS).reverse := by
    rw [stripRight, ← List.reverse_append, List.takeWhile_append_dropWhile, List.reverse_reverse]
  have hws : ∀ c ∈ (t.reverse.takeWhile pyIsWS).reverse, pyIsWS c = true := by
    intro c hc
    exact List.mem_takeWhile_imp (List.mem_reverse.mp hc)
  conv_rhs => rw [hdecomp]
  rw [numsOf_append_ws _ hws]

theorem numsOf_pyStrip (t : List Char) : numsOf (pyStripL t) = numsOf t := by
  rw [pyStripL, numsOf_stripRight, numsOf_stripLeft]

/-! ## The numeric walk: last qualifying resource wins -/

theorem precomputed_foldl_last (cutoff : Option ℚ) (l : List (String × String)) :
    ∀ acc : Option ℚ,
      l.foldl (fun acc kv => if qualifiesAsset kv.1 kv.2 then csv_sum kv.2 cutoff else acc) acc =
        match l.reverse.find? (fun kv => qualifiesAsset kv.1 kv.2) with
        | some kv => csv_sum kv.2 cutoff
        | none => acc := by
  induction l using List.reverseRecOn with
  | nil => intro acc; simp
  | append_singleton xs x ih =>
    intro acc
    rw [List.foldl_append, List.reverse_append]
    simp only [List.foldl_cons, List.foldl_nil, List.reverse_cons, List.reverse_nil,
      List.nil_append, List.singleton_append, List.find?_cons]
    by_cases hq : qualifiesAsset x.1 x.2
    · simp [hq]
    · simp only [hq]
      simp only [Bool.false_eq_true, if_false]
      exact ih acc

/-! ## Claim theorems for the aggregator and orchestrator walk -/

/-- C1: walking the discovered resource mapping in insertion order and
recomputing the sum for every qualifying resource (resolved URL containing
`.csv`, or a digit in the body's first 80 characters) without breaking
early makes the final numeric result equal the aggregator applied to the
last qualifying resource, and leaves it absent when none qualifies. -/
theorem precomputed_result_is_last_qualifying (cutoff : Option ℚ)
    (assets : List (String × String)) :
    precomputed_result cutoff assets =
      match assets.reverse.find? (fun kv => qualifiesAsset kv.1 kv.2) with
      | some kv => csv_sum kv.2 cutoff
      | none => none := by
  rw [precomputed_result, precomputed_foldl_last]

/-- C2: `csv_sum` coincides with the reference definition written from the
spec (split on newline and comma, parse cells discarding failures, keep
values strictly above the threshold, sum, empty set sums to 0), and the
three concrete examples hold. -/
theorem csv_sum_matches_reference :
    (∀ (data : String) (t : Option ℚ), csv_sum data t = some (csv_sum_ref data t)) ∧
    csv_sum "1,2,3\n4,5" none = some 15 ∧
    csv_sum "1,10,20" (some 5) = some 30 ∧
    csv_sum "a,b,c" none = some 0 := by
  refine ⟨fun data t => ?_, ?_, ?_, ?_⟩
  · rw [csv_sum, csv_sum_ref, numsOf_pyStrip]
  · have h : numsOf (pyStripL "1,2,3\n4,5".data) = [1, 2, 3, 4, 5] := by
      simp +decide [pyStripL, stripLeft, stripRight, pyIsWS, numsOf, splitOnChar, rowNums,
        parseCell, pyFloatL, readSign, readExp, digitsToNat, mantissa]
    simp [csv_sum, h, applyThreshold]
    norm_num
  · have h : numsOf (pyStripL "1,10,20".data) = [1, 10, 20] := by
      simp +decide [pyStripL, stripLeft, stripRight, pyIsWS, numsOf, splitOnChar, rowNums,
        parseCell, pyFloatL, readSign, readExp, digitsToNat, mantissa]
    simp [csv_sum, h, applyThreshold]
    norm_num
  · have h : numsOf (pyStripL "a,b,c".data) = [] := by
      simp +decide [pyStripL, stripLeft, stripRight, pyIsWS, numsOf, splitOnChar, rowNums,
        parseCell, pyFloatL, readSign, readExp, digitsToNat, mantissa]
    simp [csv_sum, h, applyThreshold]

/-- C8: the aggregator never propagates an exception: on every input it
returns an actual value (`some`), per-cell parse failures having been
discarded inside `parseCell`; the `except` branch that would map an
internal fault to `None` is unreachable in the pure model. -/
theorem csv_sum_never_raises :
    ∀ (data : String) (t : Option ℚ), (csv_sum data t).isSome = true :=
  fun _ _ => rfl

/-! ## Claim theorems for the renderer -/

/-- C9 counterexample: `build_driver()` (src/app.py line 46) is called
before the `try`, so a driver crash at acquisition propagates an exception
out of `render_dynamic_page` instead of yielding empty text: on a run
whose only failure is acquisition, the function does not return the empty
string — it raises. -/
theorem render_driver_crash_counterexample :
    render_dynamic_page ⟨none, some (), some "body text", some ()⟩ =
      Except.error "webdriver acquisition raised" ∧
    render_dynamic_page ⟨none, some (), some "body text", some ()⟩ ≠ Except.ok "" := by
  constructor
  · rfl
  · simp [render_dynamic_page]

/-- C9 amended: once driver acquisition (`build_driver()`, before the
`try`) has succeeded, any failure of the in-`try` driver calls —
navigation, body-text extraction, or the in-scope quit — makes the caller
receive the empty string with no fault propagating; a failure of driver
acquisition itself, however, propagates as an exception to the caller. -/
theorem render_failure_amended :
    (∀ r : BrowserRun, r.acquire = some () →
      r.nav = none ∨ r.bodyText = none ∨ r.quitOk = none →
      render_dynamic_page r = Except.ok "") ∧
    (∀ r : BrowserRun, r.acquire = none →
      render_dynamic_page r = Except.error "webdriver acquisition raised") := by
  constructor
  · intro r ha h
    rcases h with h | h | h
    · simp [render_dynamic_page, ha, h]
    · cases hn : r.nav <;> simp [render_dynamic_page, ha, hn, h]
    · cases hn : r.nav <;> cases hb : r.bodyText <;>
        simp [render_dynamic_page, ha, hn, hb, h]
  · intro r ha
    simp [render_dynamic_page, ha]

theorem render_failure_amended_witness :
    render_dynamic_page ⟨some (), none, some "body text", some ()⟩ = Except.ok "" :=
  render_failure_amended.1 ⟨some (), none, some "body text", some ()⟩ rfl (Or.inl rfl)

/-! ## Claim theorems for URL resolution -/

/-- C10: a raw candidate beginning with the four characters `http` (valid
scheme or not) is used unchanged as the resolved URL, and relative
resolution via `urljoin` happens only for candidates starting with neither
`/` nor `http`. -/
theorem http_link_used_verbatim (C : Collab) (base link : String) :
    (pyStartsWith "http" link = true → resolve_link C base link = link) ∧
    (pyStartsWith "/" link = false → pyStartsWith "http" link = false →
      resolve_link C base link = C.urljoin base link) := by
  constructor
  · intro h
    have hslash : pyStartsWith "/" link = false := by
      cases hd : link.data with
      | nil =>
        rw [pyStartsWith, hd] at h
        exact absurd h (by decide)
      | cons c cs =>
        rw [pyStartsWith, hd] at h
        have hdat : ("http".data) = ['h', 't', 't', 'p'] := by decide
        rw [hdat] at h
        simp only [List.isPrefixOf, Bool.and_eq_true, beq_iff_eq] at h
        have hc : c = 'h' := h.1.symm
        show List.isPrefixOf "/".data link.data = false
        rw [hd, hc]
        simp +decide [List.isPrefixOf]
    rw [resolve_link, hslash]
    simp [h]
  · intro h1 h2
    simp [resolve_link, h1, h2]

theorem http_link_used_verbatim_witness :
    resolve_link demoCollab "http://h/x" "httpdocs/page" = "httpdocs/page" :=
  (http_link_used_verbatim demoCollab "http://h/x" "httpdocs/page").1 (by decide)

/-! ## dictInsert lemmas -/

theorem mem_dictInsert {kv : (String × String)} {k v : String} :
    ∀ {d : List (String × String)}, kv ∈ dictInsert k v d → kv = (k, v) ∨ kv ∈ d := by
  intro d
  induction d with
  | nil =>
    intro h
    simp [dictInsert] at h
    exact Or.inl h
  | cons p rest ih =>
    intro h
    rw [dictInsert] at h
    by_cases hp : p.1 = k
    · rw [if_pos hp] at h
      rcases List.mem_cons.mp h with h | h
      · exact Or.inl h
      · exact Or.inr (List.mem_cons_of_mem p h)
    · rw [if_neg hp] at h
      rcases List.mem_cons.mp h with h | h
      · exact Or.inr (by simp [h])
      · rcases ih h with h | h
        · exact Or.inl h
        · exact Or.inr (List.mem_cons_of_mem p h)

theorem mem_keys_dictInsert {x k v : String} :
    ∀ {d : List (String × String)},
      x ∈ (dictInsert k v d).map Prod.fst → x = k ∨ x ∈ d.map Prod.fst := by
  intro d
  induction d with
  | nil =>
    intro h
    simp [dictInsert] at h
    exact Or.inl h
  | cons p rest ih =>
    intro h
    rw [dictInsert] at h
    by_cases hp : p.1 = k
    · rw [if_pos hp] at h
      simp only [List.map_cons] at h
      rcases List.mem_cons.mp h with h | h
      · exact Or.inl h
      · exact Or.inr (by simp only [List.map_cons]; exact List.mem_cons_of_mem p.1 h)
    · rw [if_neg hp] at h
      simp only [List.map_cons] at h
      rcases List.mem_cons.mp h with h | h
      · exact Or.inr (by simp only [List.map_cons]; exact h ▸ List.mem_cons_self p.1 _)
      · rcases ih h with h | h
        · exact Or.inl h
        · exact Or.inr (by simp only [List.map_cons]; exact List.mem_cons_of_mem p.1 h)

theorem nodup_keys_dictInsert {k v : String} :
    ∀ {d : List (String × String)},
      (d.map Prod.fst).Nodup → ((dictInsert k v d).map Prod.fst).Nodup := by
  intro d
  induction d with
  | nil => intro _; simp [dictInsert]
  | cons p rest ih =>
    intro h
    rw [dictInsert]
    by_cases hp : p.1 = k
    · rw [if_pos hp]
      simp only [List.map_cons, List.nodup_cons] at h ⊢
      exact ⟨hp ▸ h.1, h.2⟩
    · rw [if_neg hp]
      simp only [List.map_cons, List.nodup_cons] at h ⊢
      refine ⟨?_, ih h.2⟩
      intro hmem
      rcases mem_keys_dictInsert hmem with h1 | h1
      · exact hp h1
      · exact h.1 h1

/-! ## sniff_step branch lemmas -/

theorem sniff_step_id {C : Collab} {base : String} {st : SniffState} {link : String}
    (h : link ∈ st.unique ∨ skipLink link = true) :
    sniff_step C base st link = st := by
  rcases h with h | h
  · by_cases hs : skipLink link = true
    · simp [sniff_step, hs]
    · simp [sniff_step, hs, h]
  · simp [sniff_step, h]

theorem sniff_step_unique_mono {C : Collab} {base : String} {st : SniffState} {link x : String}
    (h : x ∈ st.unique) : x ∈ (sniff_step C base st link).unique := by
  by_cases h1 : skipLink link = true
  · simp only [sniff_step, if_pos h1]; exact h
  by_cases h2 : link ∈ st.unique
  · simp only [sniff_step, if_neg h1, if_pos h2]; exact h
  by_cases h3 : pyContains "submit" (pyLower (resolve_link C base link)) = true
  · simp only [sniff_step, if_neg h1, if_neg h2, if_pos h3]
    exact List.mem_cons_of_mem link h
  cases hf : C.fetch (resolve_link C base link) with
  | none =>
    simp only [sniff_step, if_neg h1, if_neg h2, if_neg h3, hf]
    exact List.mem_cons_of_mem link h
  | some body =>
    by_cases h5 : isStubBody body = true
    · simp only [sniff_step, if_neg h1, if_neg h2, if_neg h3, hf, if_pos h5]
      exact List.mem_cons_of_mem link h
    · simp only [sniff_step, if_neg h1, if_neg h2, if_neg h3, hf, if_neg h5]
      exact List.mem_cons_of_mem link h

theorem sniff_step_mem_unique {C : Collab} {base : String} {st : SniffState} {link : String}
    (h : skipLink link = false) : link ∈ (sniff_step C base st link).unique := by
  have h1 : ¬skipLink link = true := by simp [h]
  by_cases h2 : link ∈ st.unique
  · simp only [sniff_step, if_neg h1, if_pos h2]; exact h2
  by_cases h3 : pyContains "submit" (pyLower (resolve_link C base link)) = true
  · simp only [sniff_step, if_neg h1, if_neg h2, if_pos h3]
    exact List.mem_cons_self link st.unique
  cases hf : C.fetch (resolve_link C base link) with
  | none =>
    simp only [sniff_step, if_neg h1, if_neg h2, if_neg h3, hf]
    exact List.mem_cons_self link st.unique
  | some body =>
    by_cases h5 : isStubBody body = true
    · simp only [sniff_step, if_neg h1, if_neg h2, if_neg h3, hf, if_pos h5]
      exact List.mem_cons_self link st.unique
    · simp only [sniff_step, if_neg h1, if_neg h2, if_neg h3, hf, if_neg h5]
      exact List.mem_cons_self link st.unique

/-! ## Invariant preservation across one discovery iteration -/

theorem sniff_step_preserves_nosubmit (C : Collab) (base : String) (st : SniffState)
    (link : String)
    (h : (∀ u ∈ st.fetched, pyContains "submit" (pyLower u) = false) ∧
         (∀ kv ∈ st.discovered, pyContains "submit" (pyLower kv.1) = false)) :
    (∀ u ∈ (sniff_step C base st link).fetched, pyContains "submit" (pyLower u) = false) ∧
    (∀ kv ∈ (sniff_step C base st link).discovered,
        pyContains "submit" (pyLower kv.1) = false) := by
  by_cases h1 : skipLink link = true
  · simp only [sniff_step, if_pos h1]; exact h
  by_cases h2 : link ∈ st.unique
  · simp only [sniff_step, if_neg h1, if_pos h2]; exact h
  by_cases h3 : pyContains "submit" (pyLower (resolve_link C base link)) = true
  · simp only [sniff_step, if_neg h1, if_neg h2, if_pos h3]; exact h
  have h3f : pyContains "submit" (pyLower (resolve_link C base link)) = false := by
    simpa using h3
  have hfetch : ∀ u ∈ st.fetched ++ [resolve_link C base link],
      pyContains "submit" (pyLower u) = false := by
    intro u hu
    rcases List.mem_append.mp hu with hu | hu
    · exact h.1 u hu
    · simp at hu
      exact hu ▸ h3f
  have hdisc : ∀ (v : String) (kv : String × String),
      kv ∈ dictInsert (resolve_link C base link) v st.discovered →
      pyContains "submit" (pyLower kv.1) = false := by
    intro v kv hkv
    rcases mem_dictInsert hkv with hkv | hkv
    · rw [hkv]
      exact h3f
    · exact h.2 kv hkv
  cases hf : C.fetch (resolve_link C base link) with
  | none =>
    simp only [sniff_step, if_neg h1, if_neg h2, if_neg h3, hf]
    exact ⟨hfetch, h.2⟩
  | some body =>
    by_cases h5 : isStubBody body = true
    · simp only [sniff_step, if_neg h1, if_neg h2, if_neg h3, hf, if_pos h5]
      exact ⟨hfetch, hdisc _⟩
    · simp only [sniff_step, if_neg h1, if_neg h2, if_neg h3, hf, if_neg h5]
      exact ⟨hfetch, hdisc _⟩

theorem pyTake_length_le (n : Nat) (s : String) : (pyTake n s).length ≤ n := by
  show (s.data.take n).length ≤ n
  simp

theorem sniff_step_preserves_bound (C : Collab) (base : String) (st : SniffState)
    (link : String)
    (h : ∀ kv ∈ st.discovered, kv.2.length ≤ 12000) :
    ∀ kv ∈ (sniff_step C base st link).discovered, kv.2.length ≤ 12000 := by
  by_cases h1 : skipLink link = true
  · simp only [sniff_step, if_pos h1]; exact h
  by_cases h2 : link ∈ st.unique
  · simp only [sniff_step, if_neg h1, if_pos h2]; exact h
  by_cases h3 : pyContains "submit" (pyLower (resolve_link C base link)) = true
  · simp only [sniff_step, if_neg h1, if_neg h2, if_pos h3]; exact h
  have hdisc : ∀ (v : String), v.length ≤ 12000 → ∀ (kv : String × String),
      kv ∈ dictInsert (resolve_link C base link) v st.discovered → kv.2.length ≤ 12000 := by
    intro v hv kv hkv
    rcases mem_dictInsert hkv with hkv | hkv
    · rw [hkv]
      exact hv
    · exact h kv hkv
  cases hf : C.fetch (resolve_link C base link) with
  | none =>
    simp only [sniff_step, if_neg h1, if_neg h2, if_neg h3, hf]
    exact h
  | some body =>
    by_cases h5 : isStubBody body = true
    · simp only [sniff_step, if_neg h1, if_neg h2, if_neg h3, hf, if_pos h5]
      exact hdisc _ (pyTake_length_le 12000 _)
    · simp only [sniff_step, if_neg h1, if_neg h2, if_neg h3, hf, if_neg h5]
      exact hdisc _ (pyTake_length_le 12000 _)

theorem sniff_step_preserves_renderlog (C : Collab) (base : String) (st : SniffState)
    (link : String)
    (h : st.rendered = st.fetched.filter (isStubFetch C)) :
    (sniff_step C base st link).rendered =
      (sniff_step C base st link).fetched.filter (isStubFetch C) := by
  by_cases h1 : skipLink link = true
  · simp only [sniff_step, if_pos h1]; exact h
  by_cases h2 : link ∈ st.unique
  · simp only [sniff_step, if_neg h1, if_pos h2]; exact h
  by_cases h3 : pyContains "submit" (pyLower (resolve_link C base link)) = true
  · simp only [sniff_step, if_neg h1, if_neg h2, if_pos h3]; exact h
  cases hf : C.fetch (resolve_link C base link) with
  | none =>
    have hsf : isStubFetch C (resolve_link C base link) = false := by
      simp [isStubFetch, hf]
    simp only [sniff_step, if_neg h1, if_neg h2, if_neg h3, hf]
    rw [List.filter_append, ← h]
    simp [List.filter_cons, hsf]
  | some body =>
    by_cases h5 : isStubBody body = true
    · have hsf : isStubFetch C (resolve_link C base link) = true := by
        simp [isStubFetch, hf, h5]
      simp only [sniff_step, if_neg h1, if_neg h2, if_neg h3, hf, if_pos h5]
      rw [List.filter_append, ← h]
      simp [List.filter_cons, hsf]
    · have h5f : isStubBody body = false := by simpa using h5
      have hsf : isStubFetch C (resolve_link C base link) = false := by
        simp [isStubFetch, hf, h5f]
      simp only [sniff_step, if_neg h1, if_neg h2, if_neg h3, hf, if_neg h5]
      rw [List.filter_append, ← h]
      simp [List.filter_cons, hsf]

theorem sniff_step_preserves_nodupkeys (C : Collab) (base : String) (st : SniffState)
    (link : String)
    (h : (st.discovered.map Prod.fst).Nodup) :
    ((sniff_step C base st link).discovered.map Prod.fst).Nodup := by
  by_cases h1 : skipLink link = true
  · simp only [sniff_step, if_pos h1]; exact h
  by_cases h2 : link ∈ st.unique
  · simp only [sniff_step, if_neg h1, if_pos h2]; exact h
  by_cases h3 : pyContains "submit" (pyLower (resolve_link C base link)) = true
  · simp only [sniff_step, if_neg h1, if_neg h2, if_pos h3]; exact h
  cases hf : C.fetch (resolve_link C base link) with
  | none =>
    simp only [sniff_step, if_neg h1, if_neg h2, if_neg h3, hf]
    exact h
  | some body =>
    by_cases h5 : isStubBody body = true
    · simp only [sniff_step, if_neg h1, if_neg h2, if_neg h3, hf, if_pos h5]
      exact nodup_keys_dictInsert h
    · simp only [sniff_step, if_neg h1, if_neg h2, if_neg h3, hf, if_neg h5]
      exact nodup_keys_dictInsert h

/-! ## Raw-string deduplication is invisible to the fold -/

theorem foldl_dedupAux (C : Collab) (base : String) :
    ∀ (l seen : List String) (st : SniffState),
      (∀ y ∈ seen, y ∈ st.unique ∨ skipLink y = true) →
      (dedupAux seen l).foldl (sniff_step C base) st = l.foldl (sniff_step C base) st := by
  intro l
  induction l with
  | nil => intro seen st _; rfl
  | cons x xs ih =>
    intro seen st h
    by_cases hx : x ∈ seen
    · rw [dedupAux, if_pos hx, List.foldl_cons, sniff_step_id (h x hx)]
      exact ih seen st h
    · rw [dedupAux, if_neg hx, List.foldl_cons, List.foldl_cons]
      apply ih
      intro y hy
      rcases List.mem_cons.mp hy with hy | hy
      · subst hy
        cases hs : skipLink y with
        | true => exact Or.inr rfl
        | false => exact Or.inl (sniff_step_mem_unique hs)
      · rcases h y hy with h1 | h1
        · exact Or.inl (sniff_step_unique_mono h1)
        · exact Or.inr h1

/-! ## Claim theorems for the discovery pass -/

/-- C3: for every input to discovery, no resolved URL whose lowercase form
contains `submit` is ever fetched (no `requests.get` attempt) or stored as
a key of the returned mapping, whatever raw links the extraction patterns
produce. -/
theorem no_submit_fetched_or_stored (C : Collab) (extract : String → List String)
    (base htmlText visibleText : String) :
    (∀ u ∈ (sniff_run C extract base htmlText visibleText).fetched,
        pyContains "submit" (pyLower u) = false) ∧
    (∀ kv ∈ (sniff_run C extract base htmlText visibleText).discovered,
        pyContains "submit" (pyLower kv.1) = false) := by
  have h := foldlInv
    (fun st : SniffState =>
      (∀ u ∈ st.fetched, pyContains "submit" (pyLower u) = false) ∧
      (∀ kv ∈ st.discovered, pyContains "submit" (pyLower kv.1) = false))
    (sniff_step C base)
    (fun st link hp => sniff_step_preserves_nosubmit C base st link hp)
    (extract (htmlText ++ visibleText)) initSniffState
    (by constructor <;> intro x hx <;> simp [initSniffState] at hx)
  exact h

theorem no_submit_fetched_or_stored_witness :
    pyContains "submit" (pyLower "http://h/a") = false :=
  (no_submit_fetched_or_stored demoCollab demoExtract "http://h" "" "").1
    "http://h/a" (by decide)

/-- C7: every body stored in the mapping returned by discovery has length
at most 12000 characters, whatever the collaborators return. -/
theorem stored_body_length_le (C : Collab) (extract : String → List String)
    (base htmlText visibleText : String) :
    ∀ kv ∈ (sniff_run C extract base htmlText visibleText).discovered,
      kv.2.length ≤ 12000 := by
  have h := foldlInv
    (fun st : SniffState => ∀ kv ∈ st.discovered, kv.2.length ≤ 12000)
    (sniff_step C base)
    (fun st link hp => sniff_step_preserves_bound C base st link hp)
    (extract (htmlText ++ visibleText)) initSniffState
    (by intro x hx; simp [initSniffState] at hx)
  exact h

theorem stored_body_length_le_witness :
    (("http://h/a", "data") : String × String).2.length ≤ 12000 :=
  stored_body_length_le demoCollab demoExtract "http://h" "" ""
    ("http://h/a", "data") (by decide)

/-- C5: during discovery, a fetched body containing `<script` and shorter
than 600 characters triggers exactly one fallback re-render of that same
resolved URL, whose output (truncated) replaces the original body in the
stored mapping — globally, the render log is exactly the stub-qualifying
sublist of the fetch log; a fetch failing either condition is stored
truncated without any re-render. -/
theorem stub_rerender_exactly_once :
    (∀ (C : Collab) (extract : String → List String) (base htmlText visibleText : String),
      (sniff_run C extract base htmlText visibleText).rendered =
        (sniff_run C extract base htmlText visibleText).fetched.filter (isStubFetch C)) ∧
    (∀ (C : Collab) (base : String) (st : SniffState) (link body : String),
      skipLink link = false →
      link ∉ st.unique →
      pyContains "submit" (pyLower (resolve_link C base link)) = false →
      C.fetch (resolve_link C base link) = some body →
      (isStubBody body = true →
        (sniff_step C base st link).rendered = st.rendered ++ [resolve_link C base link] ∧
        (sniff_step C base st link).discovered =
          dictInsert (resolve_link C base link)
            (pyTake 12000 (C.render (resolve_link C base link))) st.discovered) ∧
      (isStubBody body = false →
        (sniff_step C base st link).rendered = st.rendered ∧
        (sniff_step C base st link).discovered =
          dictInsert (resolve_link C base link) (pyTake 12000 body) st.discovered)) := by
  constructor
  · intro C extract base htmlText visibleText
    exact foldlInv
      (fun st : SniffState => st.rendered = st.fetched.filter (isStubFetch C))
      (sniff_step C base)
      (fun st link hp => sniff_step_preserves_renderlog C base st link hp)
      (extract (htmlText ++ visibleText)) initSniffState rfl
  · intro C base st link body hskip hmem hsub hf
    have h1 : ¬skipLink link = true := by simp [hskip]
    have h3 : ¬pyContains "submit" (pyLower (resolve_link C base link)) = true := by
      simp [hsub]
    constructor
    · intro hstub
      constructor <;>
        simp only [sniff_step, if_neg h1, if_neg hmem, if_neg h3, hf, if_pos hstub]
    · intro hstub
      have h5 : ¬isStubBody body = true := by simp [hstub]
      constructor <;>
        simp only [sniff_step, if_neg h1, if_neg hmem, if_neg h3, hf, if_neg h5]

theorem stub_rerender_exactly_once_witness :
    (sniff_step demoCollab "http://h" initSniffState "/js").rendered =
      initSniffState.rendered ++ [resolve_link demoCollab "http://h" "/js"] ∧
    (sniff_step demoCollab "http://h" initSniffState "/js").discovered =
      dictInsert (resolve_link demoCollab "http://h" "/js")
        (pyTake 12000 (demoCollab.render (resolve_link demoCollab "http://h" "/js")))
        initSniffState.discovered :=
  (stub_rerender_exactly_once.2 demoCollab "http://h" initSniffState "/js"
    "<script src=x>" (by decide) (by decide) (by decide) (by decide)).1 (by decide)

/-- C6 counterexample: two distinct raw links (`/a` and `http://h/a`) that
resolve to the same URL are each fetched — the resolved URL `http://h/a`
receives two fetch attempts in one discovery pass, refuting "at most one
fetch performed for each resolved URL". -/
theorem resolved_url_double_fetch_counterexample :
    ¬ ((sniff_run demoCollab demoExtract "http://h" "" "").fetched.count "http://h/a" ≤ 1) := by
  decide

/-- C6 amended: deduplication happens on the raw link string before
resolution — running discovery on the candidate list with later repeats of
a raw string removed produces exactly the same state, so a raw link seen
twice is fetched at most once — and each resolved URL appears at most once
as a key of the returned mapping; but distinct raw links resolving to the
same URL each trigger their own fetch. -/
theorem raw_dedup_amended :
    (∀ (C : Collab) (extract : String → List String) (base htmlText visibleText : String),
      sniff_run C (fun s => dedupKeepFirst (extract s)) base htmlText visibleText =
        sniff_run C extract base htmlText visibleText) ∧
    (∀ (C : Collab) (extract : String → List String) (base htmlText visibleText : String),
      ((sniff_run C extract base htmlText visibleText).discovered.map Prod.fst).Nodup) := by
  constructor
  · intro C extract base htmlText visibleText
    rw [sniff_run, sniff_run, dedupKeepFirst]
    exact foldl_dedupAux C base (extract (htmlText ++ visibleText)) [] initSniffState
      (by intro y hy; simp at hy)
  · intro C extract base htmlText visibleText
    exact foldlInv
      (fun st : SniffState => (st.discovered.map Prod.fst).Nodup)
      (sniff_step C base)
      (fun st link hp => sniff_step_preserves_nodupkeys C base st link hp)
      (extract (htmlText ++ visibleText)) initSniffState (by simp [initSniffState])

/-! ## Claim theorems for the cutoff extraction -/

/-- C4 counterexample: the page text `CUTOFF: 42` contains the phrase
`Cutoff: 42` in an upper letter case, yet the extraction — whose regex
`[Cc]utoff[: ]+(\d+)` is matched without `re.IGNORECASE` — finds no match
and leaves the cutoff unset instead of yielding 42. -/
theorem cutoff_uppercase_counterexample :
    extract_cutoff "CUTOFF: 42" = none ∧ extract_cutoff "CUTOFF: 42" ≠ some 42 := by
  constructor
  · decide
  · decide

theorem searchCutoff_of_no_c (cs : List Char) (h : ∀ ch ∈ cs, ch ≠ 'C' ∧ ch ≠ 'c') :
    searchCutoff cs = none := by
  induction cs with
  | nil => rfl
  | cons c cs ih =>
    have hm : cutoffMatchAt (c :: cs) = none := by
      have hc := h c (List.mem_cons_self c cs)
      rw [cutoffMatchAt, if_neg (by tauto)]
    simp only [searchCutoff, hm]
    exact ih (fun ch hch => h ch (List.mem_cons_of_mem c hch))

/-- C4 amended: the cutoff extraction matches `[Cc]utoff[: ]+(\d+)` at the
leftmost position — only the initial letter of `Cutoff` is
case-insensitive, not the whole word.  Page text starting with
`Cutoff: 42` (or `cutoff: 42`) whose following character is not a further
digit yields the integer 42; the all-uppercase `CUTOFF: 42` yields no
match; and text containing neither `C` nor `c` leaves the cutoff unset. -/
theorem cutoff_extraction_amended :
    (∀ rest : List Char, (∀ d, rest.head? = some d → d.isDigit = false) →
      searchCutoff
        ('C' :: 'u' :: 't' :: 'o' :: 'f' :: 'f' :: ':' :: ' ' :: '4' :: '2' :: rest) = some 42 ∧
      searchCutoff
        ('c' :: 'u' :: 't' :: 'o' :: 'f' :: 'f' :: ':' :: ' ' :: '4' :: '2' :: rest) = some 42) ∧
    extract_cutoff "CUTOFF: 42" = none ∧
    (∀ s : String, (∀ ch ∈ s.data, ch ≠ 'C' ∧ ch ≠ 'c') → extract_cutoff s = none) := by
  refine ⟨fun rest h => ?_, by decide, fun s h => searchCutoff_of_no_c s.data h⟩
  have htw : rest.takeWhile Char.isDigit = [] := by
    cases hr : rest with
    | nil => rfl
    | cons d ds =>
      have hd := h d (by rw [hr]; rfl)
      simp [List.takeWhile_cons, hd]
  constructor <;>
    simp +decide [searchCutoff, cutoffMatchAt, matchLiteral, isCutoffSep,
      List.takeWhile_cons, List.dropWhile_cons, htw, digitsToNat]

theorem cutoff_extraction_amended_witness :
    searchCutoff
      ('C' :: 'u' :: 't' :: 'o' :: 'f' :: 'f' :: ':' :: ' ' :: '4' :: '2' :: []) = some 42 :=
  (cutoff_extraction_amended.1 [] (fun d hd => by cases hd)).1
